import Mathlib

set_option maxRecDepth 20000
set_option linter.unusedVariables false

/- Shallow embedding of the emplit backend's ingestion-enrichment pipeline
   (src/backend/ai_processor.py and src/backend/scraper.py).  Strings are
   modelled as lists of characters; Python str.lower is modelled by mapping
   Char.toLower over the characters; Python's substring test `w in s` is
   modelled by the executable hasSubstr below. -/

/-- Python str.lower applied to the texts handled here (ASCII case folding). -/
def lowerStr (s : List Char) : List Char := s.map Char.toLower

/-- The combined text built by both rule-based classifiers, mirroring the
    Python interpolation of title_lower, a space, and desc_lower. -/
def lowerCombined (title description : List Char) : List Char :=
  lowerStr title ++ ' ' :: lowerStr description

/-- Does the pattern sit at the head of the text? -/
def startsWith : List Char → List Char → Bool
  | _, [] => true
  | [], _ :: _ => false
  | c :: cs, p :: ps => c == p && startsWith cs ps

/-- Does the pattern occur contiguously anywhere in the text? -/
def hasSubstr : List Char → List Char → Bool
  | [], pat => pat.isEmpty
  | c :: cs, pat => startsWith (c :: cs) pat || hasSubstr cs pat

/-- Python `word in combined`: substring membership. -/
def containsWord (combined : List Char) (w : String) : Bool :=
  hasSubstr combined w.toList

/-- Python `any(word in combined for word in ws)`. -/
def anyWord (combined : List Char) (ws : List String) : Bool :=
  ws.any (containsWord combined)

/-- AIJobProcessor.basic_categorization (src/backend/ai_processor.py,
    lines 145-166): an if/elif chain of keyword groups over the lower-cased
    combined title and description. -/
def basic_categorization (title description : List Char) : List Char :=
  let combined := lowerCombined title description
  if anyWord combined ["research", "postdoc", "research associate", "research fellow"] then
    "Research".toList
  else if anyWord combined ["lecturer", "professor", "teaching", "faculty"] then
    "Teaching".toList
  else if anyWord combined ["phd", "doctoral", "doctorate"] then
    "PhD".toList
  else if anyWord combined ["fellowship", "fellow"] then
    "Fellowship".toList
  else if anyWord combined ["intern", "internship", "trainee"] then
    "Internship".toList
  else if anyWord combined ["technical", "engineer", "analyst", "developer"] then
    "Technical".toList
  else if anyWord combined ["administrator", "manager", "coordinator", "officer"] then
    "Administrative".toList
  else
    "General".toList

/-- First-match evaluation of an ordered association list of
    (category, keyword group) rules, returning "General" when no group
    matches.  This is the loop over categories.items() in
    LondonAcademicScraper.categorize_job, and also the explicitly ordered
    rule evaluation the spec describes for the rule-based classifier. -/
def firstMatchCategory : List (List Char × List String) → List Char → List Char
  | [], _ => "General".toList
  | (cat, kws) :: rest, combined =>
      if anyWord combined kws then cat else firstMatchCategory rest combined

/-- The ordered keyword table of LondonAcademicScraper.categorize_job
    (src/backend/scraper.py, lines 172-180), in Python dict insertion order. -/
def scraperCategories : List (List Char × List String) :=
  [("Research".toList, ["research", "postdoc", "phd", "researcher", "research fellow", "research associate"]),
   ("Teaching".toList, ["lecturer", "professor", "teaching", "education", "academic", "faculty"]),
   ("Administrative".toList, ["administrator", "manager", "coordinator", "officer", "assistant", "support"]),
   ("Technical".toList, ["technical", "engineer", "developer", "analyst", "specialist", "technician"]),
   ("Internship".toList, ["intern", "internship", "placement", "trainee", "graduate scheme"]),
   ("Fellowship".toList, ["fellowship", "fellow", "visiting", "scholar"]),
   ("PhD".toList, ["phd", "doctoral", "doctorate", "graduate student"])]

/-- LondonAcademicScraper.categorize_job (src/backend/scraper.py,
    lines 164-187). -/
def categorize_job (title description : List Char) : List Char :=
  firstMatchCategory scraperCategories (lowerCombined title description)

/-- Spec-side definition for the claimed precedence order: the keyword groups
    of AIJobProcessor.basic_categorization arranged as an explicitly ordered
    rule list Research, Teaching, PhD, Fellowship, Internship, Technical,
    Administrative, falling through to General, to be evaluated first-match
    by firstMatchCategory. -/
def specOrderedRules : List (List Char × List String) :=
  [("Research".toList, ["research", "postdoc", "research associate", "research fellow"]),
   ("Teaching".toList, ["lecturer", "professor", "teaching", "faculty"]),
   ("PhD".toList, ["phd", "doctoral", "doctorate"]),
   ("Fellowship".toList, ["fellowship", "fellow"]),
   ("Internship".toList, ["intern", "internship", "trainee"]),
   ("Technical".toList, ["technical", "engineer", "analyst", "developer"]),
   ("Administrative".toList, ["administrator", "manager", "coordinator", "officer"])]

/-- Python description.split('. '): leftmost, non-overlapping splitting on
    the two-character separator, preserving empty pieces. -/
def splitPeriodSpace : List Char → List (List Char)
  | [] => [[]]
  | '.' :: ' ' :: rest => [] :: splitPeriodSpace rest
  | c :: rest =>
      match splitPeriodSpace rest with
      | [] => [[c]]
      | g :: gs => (c :: g) :: gs

/-- Python '. '.join(pieces). -/
def joinPS : List (List Char) → List Char
  | [] => []
  | [s] => s
  | s :: rest => s ++ '.' :: ' ' :: joinPS rest

/-- AIJobProcessor.generate_basic_summary (src/backend/ai_processor.py,
    lines 77-87): first two period-space sentences rejoined with a trailing
    period, else the description, truncated at 200 characters with an
    appended ellipsis when longer than 200. -/
def generate_basic_summary (title description : List Char) : List Char :=
  let sentences := splitPeriodSpace description
  if sentences.length ≥ 2 then joinPS (sentences.take 2) ++ ['.']
  else if description.length > 200 then description.take 200 ++ "...".toList
  else description

/-- Outcome of one HTTP call to the external service: a response with a
    status code and extracted message content, or a raised
    exception/timeout. -/
inductive HttpResult where
  | ok (status : Nat) (content : List Char)
  | exn
deriving DecidableEq

/-- Python str.strip() on the response content (whitespace at both ends). -/
def pyStrip (s : List Char) : List Char :=
  ((s.dropWhile Char.isWhitespace).reverse.dropWhile Char.isWhitespace).reverse

/-- The valid_categories list checked by AIJobProcessor.categorize_job_with_ai
    (src/backend/ai_processor.py, line 133). -/
def valid_categories : List (List Char) :=
  ["Research".toList, "Teaching".toList, "Administrative".toList, "Technical".toList,
   "Internship".toList, "Fellowship".toList, "PhD".toList]

/-- AIJobProcessor.summarize_job_description (src/backend/ai_processor.py,
    lines 26-75).  The api_enabled flag and the HTTP call outcome are explicit
    parameters; every branch yields a string, so the result is always some
    (the Python annotation Optional[str] notwithstanding). -/
def summarize_job_description (api_enabled : Bool) (call : HttpResult)
    (title description university : List Char) : Option (List Char) :=
  if api_enabled = false then some (generate_basic_summary title description)
  else
    match call with
    | .ok status content =>
        if status = 200 then some (pyStrip content)
        else some (generate_basic_summary title description)
    | .exn => some (generate_basic_summary title description)

/-- AIJobProcessor.categorize_job_with_ai (src/backend/ai_processor.py,
    lines 89-143): a 200 response's stripped content is accepted only when it
    is one of the seven valid categories; every other outcome falls back to
    basic_categorization. -/
def categorize_job_with_ai (api_enabled : Bool) (call : HttpResult)
    (title description : List Char) : List Char :=
  if api_enabled = false then basic_categorization title description
  else
    match call with
    | .ok status content =>
        if status = 200 then
          let category := pyStrip content
          if valid_categories.contains category then category
          else basic_categorization title description
        else basic_categorization title description
    | .exn => basic_categorization title description

/-- One job document as stored in the jobs collection: the fields produced by
    the scraper and read by the enrichment pass.  The Mongo _id equals the
    id generated at creation and is unique in the store. -/
structure Job where
  id : Nat
  title : List Char
  university : List Char
  description : List Char
  url : List Char
  location : List Char
  deadline : List Char
  category : Option (List Char)
  summary : Option (List Char)
  is_active : Bool
  date_added : Nat
deriving DecidableEq

/-- A job with every field blank; concrete states below override fields. -/
def baseJob : Job :=
  { id := 0, title := [], university := [], description := [], url := [],
    location := [], deadline := [], category := none, summary := none,
    is_active := true, date_added := 0 }

/-- The selection filter of the enrichment query: is_active true, and summary
    either null or missing. -/
def pendingJob (j : Job) : Bool := j.is_active && j.summary.isNone

/-- The query of process_unprocessed_jobs (src/backend/ai_processor.py,
    lines 172-178): active jobs without a summary, limited to a batch of 10. -/
def selectJobs (db : List Job) : List Job := (db.filter pendingJob).take 10

/-- The condition `not job.get("category") or job.get("category") == "General"`
    (src/backend/ai_processor.py, line 192): true when category is missing,
    None, the empty string (all falsy), or equal to "General". -/
def overwriteCategory : Option (List Char) → Bool
  | none => true
  | some s => s.isEmpty || s == "General".toList

/-- The category written back for one job in the fallback (API disabled)
    path of the enrichment loop (lines 191-198). -/
def newCategory (j : Job) : List Char :=
  if overwriteCategory j.category then basic_categorization j.title j.description
  else j.category.getD []

/-- The update_one of lines 201-209: set summary and category, computed from
    the selected document j, on the stored record k; no other field is
    touched. -/
def applyEnrich (j k : Job) : Job :=
  { k with summary := some (generate_basic_summary j.title j.description),
           category := some (newCategory j) }

/-- Apply one selected job's enrichment update to the whole collection,
    keyed by _id. -/
def updateJob (db : List Job) (j : Job) : List Job :=
  db.map fun k => if k.id == j.id then applyEnrich j k else k

/-- The per-record loop of process_unprocessed_jobs (lines 182-218) in the
    API-disabled path: fail i models the record with _id i raising inside its
    try block (logged, skipped, not counted); otherwise the record's update
    is persisted and the record is counted. -/
def processList (fail : Nat → Bool) : List Job → List Job → List Job × Nat
  | db, [] => (db, 0)
  | db, j :: rest =>
      if fail j.id then processList fail db rest
      else
        let r := processList fail (updateJob db j) rest
        (r.1, r.2 + 1)

/-- AIJobProcessor.process_unprocessed_jobs (src/backend/ai_processor.py,
    lines 168-225): select the batch, enrich each record in order, and report
    the count of records whose update was persisted. -/
def process_unprocessed_jobs (fail : Nat → Bool) (db : List Job) : List Job × Nat :=
  processList fail db (selectJobs db)

/-- Pointwise composition of a batch's updates on one stored record;
    processList maps this over the collection (lemma processList_fst). -/
def applySel (fail : Nat → Bool) : List Job → Job → Job
  | [], k => k
  | j :: rest, k =>
      applySel fail rest
        (if fail j.id then k else if k.id == j.id then applyEnrich j k else k)

/-- The failure oracle of a pass in which no record raises. -/
def noFailure : Nat → Bool := fun _ => false

/-- The find_one lookup of save_jobs_to_db (src/backend/scraper.py,
    lines 326-329): any stored job, active or not, with both the same url and
    the same university. -/
def findExisting (db : List Job) (job : Job) : Option Job :=
  db.find? fun k => k.url == job.url && k.university == job.university

/-- LondonAcademicScraper.save_jobs_to_db (src/backend/scraper.py,
    lines 317-339): for each candidate in order, skip it when findExisting
    hits, else insert it (with _id set to its creation-time id). -/
def save_jobs_to_db (db : List Job) (jobs : List Job) : List Job :=
  jobs.foldl (fun d job => if (findExisting d job).isSome then d else d ++ [job]) db

/-- The eight labels the rule-based classifiers can produce. -/
def taxonomy : List (List Char) :=
  ["Research".toList, "Teaching".toList, "Administrative".toList, "Technical".toList,
   "Internship".toList, "Fellowship".toList, "PhD".toList, "General".toList]

/-- Relation between a stored record and its image after one enrichment pass:
    either untouched, or enriched with the rule-based summary (non-empty for a
    non-empty description, of length at most max(description length + 1, 203))
    and with the category either classified into the taxonomy or kept as the
    prior value. -/
def enrichOutcome (k₀ k : Job) : Prop :=
  k = k₀ ∨
    (k.summary = some (generate_basic_summary k₀.title k₀.description) ∧
     (k₀.description ≠ [] → generate_basic_summary k₀.title k₀.description ≠ []) ∧
     (generate_basic_summary k₀.title k₀.description).length
       ≤ max (k₀.description.length + 1) 203 ∧
     (if overwriteCategory k₀.category = true then
        k.category = some (basic_categorization k₀.title k₀.description) ∧
          basic_categorization k₀.title k₀.description ∈ taxonomy
      else k.category = k₀.category))

/-- Eleven pending active jobs: one more than the batch size. -/
def dbC3 : List Job :=
  (List.range 11).map fun i =>
    { baseJob with id := i + 1, title := "t".toList, description := "a".toList }

/-- Two pending active jobs, fitting in one batch. -/
def dbC3w : List Job :=
  [{ baseJob with id := 1, description := "a".toList },
   { baseJob with id := 2, description := "b".toList }]

/-- A failure oracle raising exactly on the record with _id 1. -/
def failC4 : Nat → Bool := fun i => i == 1

/-- A pending job whose enrichment will raise under failC4. -/
def jobA4 : Job := { baseJob with id := 1, title := "t1".toList, description := "d1".toList }

/-- A pending job whose enrichment succeeds under failC4. -/
def jobB4 : Job := { baseJob with id := 2, title := "t2".toList, description := "d2".toList }

/-- A batch in which the first record fails and the second succeeds. -/
def dbC4w : List Job := [jobA4, jobB4]

/-- A stored posting matching the candidate's (url, university) key but
    inactive. -/
def dbC5 : List Job :=
  [{ baseJob with id := 1, university := "U".toList, url := "x".toList, is_active := false }]

/-- An active candidate with the same key as the inactive stored posting. -/
def candC5 : Job := { baseJob with id := 2, university := "U".toList, url := "x".toList }

/-- An active candidate over a fresh key. -/
def candC5w : Job := { baseJob with id := 3, university := "V".toList, url := "y".toList }

/-- An active pending posting with an empty description and a free-text
    category outside the taxonomy. -/
def jC7 : Job :=
  { baseJob with id := 1, title := "t".toList, description := [],
                 category := some ("Bananas".toList) }

/-- A one-record store with a pending two-sentence posting. -/
def dbC7w : List Job :=
  [{ baseJob with id := 1, description := "Hello there. General text. More.".toList }]

/-- Ten active postings of which the first three already carry a summary. -/
def dbC8w : List Job :=
  (List.range 10).map fun i =>
    { baseJob with id := i + 1, summary := if i < 3 then some ("s".toList) else none }

/-- A pending posting whose category is present but the empty string. -/
def jC9 : Job :=
  { baseJob with id := 1, title := "x".toList, description := "y".toList,
                 category := some [] }

/-- A posting already carrying a specific category. -/
def jC9w : Job := { baseJob with id := 1, category := some ("Research".toList) }

/- Helper lemmas about the summarizer's split/join. -/

theorem splitPS_ne_nil (d : List Char) : splitPeriodSpace d ≠ [] := by
  induction d using splitPeriodSpace.induct with
  | case1 => simp [splitPeriodSpace.eq_1]
  | case2 rest ih => simp [splitPeriodSpace.eq_2]
  | case3 c rest h0 hnil ih => rw [splitPeriodSpace.eq_3 c rest h0, hnil]; simp
  | case4 c rest h0 g gs hcons ih => rw [splitPeriodSpace.eq_3 c rest h0, hcons]; simp

theorem joinPS_splitPS (d : List Char) : joinPS (splitPeriodSpace d) = d := by
  induction d using splitPeriodSpace.induct with
  | case1 => simp [splitPeriodSpace.eq_1, joinPS]
  | case2 rest ih =>
    rw [splitPeriodSpace.eq_2, joinPS.eq_3 _ _ (fun h => splitPS_ne_nil rest h), ih]
    rfl
  | case3 c rest h0 hnil ih => exact absurd hnil (splitPS_ne_nil rest)
  | case4 c rest h0 g gs hcons ih =>
    rw [splitPeriodSpace.eq_3 c rest h0, hcons]
    rw [hcons] at ih
    cases gs with
    | nil => rw [joinPS.eq_2] at ih; rw [joinPS.eq_2, ih]
    | cons g2 gs2 =>
      rw [joinPS.eq_3 _ _ (by simp)] at ih
      rw [joinPS.eq_3 _ _ (by simp), ← ih]
      simp

theorem gbs_length_le (t d : List Char) :
    (generate_basic_summary t d).length ≤ max (d.length + 1) 203 := by
  simp only [generate_basic_summary]
  split
  · rename_i h2
    obtain ⟨s₁, s₂, rest, hsp⟩ : ∃ s₁ s₂ rest, splitPeriodSpace d = s₁ :: s₂ :: rest := by
      cases hsp : splitPeriodSpace d with
      | nil => rw [hsp] at h2; simp at h2
      | cons a l =>
        cases l with
        | nil => rw [hsp] at h2; simp at h2
        | cons b l2 => exact ⟨a, b, l2, rfl⟩
    have hd : d = joinPS (s₁ :: s₂ :: rest) := by rw [← hsp, joinPS_splitPS]
    have hj2 : joinPS [s₁, s₂] = s₁ ++ '.' :: ' ' :: s₂ := by
      rw [joinPS.eq_3 _ _ (by simp), joinPS.eq_2]
    have hjd : joinPS (s₁ :: s₂ :: rest) = s₁ ++ '.' :: ' ' :: joinPS (s₂ :: rest) :=
      joinPS.eq_3 _ _ (by simp)
    have hge : s₂.length ≤ (joinPS (s₂ :: rest)).length := by
      cases rest with
      | nil => rw [joinPS.eq_2]
      | cons r rs => rw [joinPS.eq_3 _ _ (by simp)]; simp
    have hdlen : d.length = s₁.length + 2 + (joinPS (s₂ :: rest)).length := by
      rw [hd, hjd]; simp; omega
    rw [hsp]
    show (joinPS (List.take 2 (s₁ :: s₂ :: rest)) ++ ['.']).length ≤ _
    simp only [List.take, hj2]
    simp only [List.length_append, List.length_cons, List.length_nil]
    omega
  · split
    · rename_i h200
      simp only [List.length_append, List.length_take]
      have : ("...".toList).length = 3 := by decide
      omega
    · rename_i h2 h200
      omega

theorem gbs_ne_nil (t d : List Char) (hd : d ≠ []) : generate_basic_summary t d ≠ [] := by
  simp only [generate_basic_summary]
  split
  · simp
  · split
    · simp
    · exact hd

theorem basic_mem_taxonomy (t d : List Char) : basic_categorization t d ∈ taxonomy := by
  simp only [basic_categorization]
  repeat' split
  all_goals decide

/- Helper lemmas about the batch enrichment loop. -/

theorem applySel_skip (fail : Nat → Bool) (j : Job) (rest : List Job) (k : Job)
    (h : fail j.id = true) : applySel fail (j :: rest) k = applySel fail rest k := by
  simp [applySel, h]

theorem applySel_step (fail : Nat → Bool) (j : Job) (rest : List Job) (k : Job)
    (h : fail j.id = false) :
    applySel fail (j :: rest) k
      = applySel fail rest (if k.id == j.id then applyEnrich j k else k) := by
  simp [applySel, h]

theorem processList_fst (fail : Nat → Bool) (sel : List Job) :
    ∀ db : List Job, (processList fail db sel).1 = db.map (applySel fail sel) := by
  induction sel with
  | nil =>
    intro db
    have h0 : applySel fail [] = fun k => k := by funext k; simp [applySel]
    simp [processList, h0]
  | cons j rest ih =>
    intro db
    cases h : fail j.id with
    | true =>
      have step : processList fail db (j :: rest) = processList fail db rest := by
        simp [processList, h]
      rw [step, ih db]
      have he : applySel fail (j :: rest) = applySel fail rest := by
        funext k; rw [applySel_skip _ _ _ _ h]
      rw [he]
    | false =>
      have step : processList fail db (j :: rest)
          = ((processList fail (updateJob db j) rest).1,
             (processList fail (updateJob db j) rest).2 + 1) := by
        simp [processList, h]
      rw [step]
      show (processList fail (updateJob db j) rest).1 = _
      rw [ih, updateJob, List.map_map]
      have he : (applySel fail rest ∘ fun k => if k.id == j.id then applyEnrich j k else k)
          = applySel fail (j :: rest) := by
        funext k
        simp only [Function.comp]
        rw [applySel_step _ _ _ _ h]
      rw [he]

theorem processList_snd (fail : Nat → Bool) (sel : List Job) :
    ∀ db : List Job,
      (processList fail db sel).2 = (sel.filter (fun j => !fail j.id)).length := by
  induction sel with
  | nil => intro db; simp [processList]
  | cons j rest ih =>
    intro db
    cases h : fail j.id with
    | true => simp [processList, h, ih db, List.filter_cons]
    | false => simp [processList, h, ih, List.filter_cons]

theorem applySel_id (fail : Nat → Bool) (sel : List Job) :
    ∀ k : Job, (applySel fail sel k).id = k.id := by
  induction sel with
  | nil => intro k; simp [applySel]
  | cons j rest ih =>
    intro k
    cases h : fail j.id with
    | true => rw [applySel_skip _ _ _ _ h]; exact ih k
    | false =>
      rw [applySel_step _ _ _ _ h, ih]
      split <;> simp [applyEnrich]

theorem applySel_active (fail : Nat → Bool) (sel : List Job) :
    ∀ k : Job, (applySel fail sel k).is_active = k.is_active := by
  induction sel with
  | nil => intro k; simp [applySel]
  | cons j rest ih =>
    intro k
    cases h : fail j.id with
    | true => rw [applySel_skip _ _ _ _ h]; exact ih k
    | false =>
      rw [applySel_step _ _ _ _ h, ih]
      split <;> simp [applyEnrich]

theorem applySel_isSome (fail : Nat → Bool) (sel : List Job) :
    ∀ k : Job, k.summary.isSome = true → (applySel fail sel k).summary.isSome = true := by
  induction sel with
  | nil => intro k hk; simpa [applySel] using hk
  | cons j rest ih =>
    intro k hk
    cases h : fail j.id with
    | true => rw [applySel_skip _ _ _ _ h]; exact ih k hk
    | false =>
      rw [applySel_step _ _ _ _ h]
      by_cases hkj : (k.id == j.id) = true
      · rw [if_pos hkj]; exact ih _ (by simp [applyEnrich])
      · rw [if_neg hkj]; exact ih k hk

theorem applySel_isSome_of_mem (fail : Nat → Bool) (sel : List Job) :
    ∀ k j : Job, j ∈ sel → fail j.id = false → j.id = k.id →
      (applySel fail sel k).summary.isSome = true := by
  induction sel with
  | nil => intro k j hj; simp at hj
  | cons j0 rest ih =>
    intro k j hj hf hid
    rcases List.mem_cons.mp hj with rfl | hj'
    · rw [applySel_step _ _ _ _ hf, if_pos (by simp [hid])]
      exact applySel_isSome _ _ _ (by simp [applyEnrich])
    · cases h0 : fail j0.id with
      | true => rw [applySel_skip _ _ _ _ h0]; exact ih k j hj' hf hid
      | false =>
        rw [applySel_step _ _ _ _ h0]
        by_cases hk : (k.id == j0.id) = true
        · rw [if_pos hk]; exact applySel_isSome _ _ _ (by simp [applyEnrich])
        · rw [if_neg hk]; exact ih k j hj' hf hid

theorem applySel_eq_self (fail : Nat → Bool) (sel : List Job) :
    ∀ k : Job, (∀ j ∈ sel, fail j.id = true ∨ j.id ≠ k.id) → applySel fail sel k = k := by
  induction sel with
  | nil => intro k _; simp [applySel]
  | cons j0 rest ih =>
    intro k hall
    cases h0 : fail j0.id with
    | true =>
      rw [applySel_skip _ _ _ _ h0]
      exact ih k (fun j hj => hall j (List.mem_cons_of_mem _ hj))
    | false =>
      rw [applySel_step _ _ _ _ h0]
      have hne : j0.id ≠ k.id := by
        rcases hall j0 (List.mem_cons_self _ _) with h | h
        · rw [h0] at h; exact absurd h (by simp)
        · exact h
      rw [if_neg (by simp; exact fun he => hne he.symm)]
      exact ih k (fun j hj => hall j (List.mem_cons_of_mem _ hj))

theorem applySel_char (fail : Nat → Bool) (k : Job) :
    ∀ sel : List Job, (sel.map Job.id).Nodup →
      applySel fail sel k = k ∨
        ∃ j ∈ sel, fail j.id = false ∧ j.id = k.id ∧
          applySel fail sel k = applyEnrich j k := by
  intro sel
  induction sel with
  | nil => intro _; left; simp [applySel]
  | cons j0 rest ih =>
    intro hnd
    rw [List.map_cons, List.nodup_cons] at hnd
    obtain ⟨hnd1, hnd2⟩ := hnd
    cases h0 : fail j0.id with
    | true =>
      rw [applySel_skip _ _ _ _ h0]
      rcases ih hnd2 with heq | ⟨j, hj, a, b, c⟩
      · left; exact heq
      · right; exact ⟨j, List.mem_cons_of_mem _ hj, a, b, c⟩
    | false =>
      rw [applySel_step _ _ _ _ h0]
      by_cases hk : (k.id == j0.id) = true
      · rw [if_pos hk]
        have hid : j0.id = k.id := (beq_iff_eq.mp hk).symm
        have hfix : applySel fail rest (applyEnrich j0 k) = applyEnrich j0 k := by
          apply applySel_eq_self
          intro j hj
          right
          have hne : j.id ≠ j0.id := fun he => hnd1 (he ▸ List.mem_map_of_mem Job.id hj)
          have hidk : (applyEnrich j0 k).id = k.id := by simp [applyEnrich]
          rw [hidk, ← hid]
          exact hne
        right; exact ⟨j0, List.mem_cons_self _ _, h0, hid, hfix⟩
      · rw [if_neg hk]
        rcases ih hnd2 with heq | ⟨j, hj, a, b, c⟩
        · left; exact heq
        · right; exact ⟨j, List.mem_cons_of_mem _ hj, a, b, c⟩

theorem selectJobs_sublist (db : List Job) : (selectJobs db).Sublist db :=
  (List.take_sublist _ _).trans (List.filter_sublist _)

theorem selectJobs_mem {db : List Job} {j : Job} (hj : j ∈ selectJobs db) : j ∈ db :=
  List.Sublist.mem hj (selectJobs_sublist db)

theorem selectJobs_nodup {db : List Job} (hnd : (db.map Job.id).Nodup) :
    ((selectJobs db).map Job.id).Nodup :=
  List.Nodup.sublist (List.Sublist.map Job.id (selectJobs_sublist db)) hnd

/- Claim theorems. -/

/-- Claim C1: the rule-based classifier AIJobProcessor.basic_categorization
    returns the first matching keyword group of the fixed precedence order
    Research, Teaching, PhD, Fellowship, Internship, Technical,
    Administrative, General (first-match over specOrderedRules); in
    particular any input whose combined lower-cased text contains both
    "postdoc" and "lecturer" is classified Research. -/
theorem claim_C1 (title description : List Char) :
    basic_categorization title description
      = firstMatchCategory specOrderedRules (lowerCombined title description) ∧
    (containsWord (lowerCombined title description) "postdoc" = true →
     containsWord (lowerCombined title description) "lecturer" = true →
     basic_categorization title description = "Research".toList) := by
  constructor
  · rfl
  · intro h1 h2
    have hr : anyWord (lowerCombined title description)
        ["research", "postdoc", "research associate", "research fellow"] = true := by
      simp [anyWord, h1]
    simp [basic_categorization, hr]

/-- Witness for claim C1 at a concrete input containing both keywords. -/
theorem claim_C1_witness :
    basic_categorization ("Postdoc Lecturer".toList) ("x".toList) = "Research".toList :=
  (claim_C1 _ _).2 (by decide) (by decide)

/-- Claim C2 counterexample: for the one-sentence description "Hi" the
    rule-based summary is the description unchanged, not the claimed
    truncation-to-200 with an appended ellipsis marker. -/
theorem claim_C2_counterexample :
    (splitPeriodSpace ("Hi".toList)).length < 2 ∧
    generate_basic_summary [] ("Hi".toList) = "Hi".toList ∧
    "Hi".toList ≠ ("Hi".toList.take 200 ++ "...".toList) := by
  decide

/-- Claim C2 (amended): the rule-based fallback splits on period-space and,
    with at least two sentences, returns the first two rejoined with a
    trailing period; with fewer it returns the first 200 characters plus an
    ellipsis when the description exceeds 200 characters and the description
    unchanged otherwise; a one-sentence description of length 500 yields at
    most 203 characters; and the spec's scenario description yields exactly
    its first two sentences. -/
theorem claim_C2 (title description : List Char) :
    ((splitPeriodSpace description).length ≥ 2 →
      generate_basic_summary title description
        = joinPS ((splitPeriodSpace description).take 2) ++ ['.']) ∧
    ((splitPeriodSpace description).length < 2 → description.length > 200 →
      generate_basic_summary title description
        = description.take 200 ++ "...".toList) ∧
    ((splitPeriodSpace description).length < 2 → description.length ≤ 200 →
      generate_basic_summary title description = description) ∧
    ((splitPeriodSpace description).length < 2 → description.length = 500 →
      (generate_basic_summary title description).length ≤ 203) ∧
    generate_basic_summary title
        ("This role requires a PhD. The lab focuses on robotics. Funding is available.".toList)
      = "This role requires a PhD. The lab focuses on robotics.".toList := by
  refine ⟨?_, ?_, ?_, ?_, ?_⟩
  · intro h2
    simp [generate_basic_summary, h2]
  · intro h2 h200
    simp [generate_basic_summary, h200]
    omega
  · intro h2 h200
    have : ¬ ((splitPeriodSpace description).length ≥ 2) := by omega
    simp [generate_basic_summary, this]
    omega
  · intro h2 h500
    have : ¬ ((splitPeriodSpace description).length ≥ 2) := by omega
    simp [generate_basic_summary, this, h500]
  · unfold generate_basic_summary
    decide

/-- Witness for claim C2 at concrete inputs: a three-sentence description and
    a one-sentence description of length 500. -/
theorem claim_C2_witness :
    generate_basic_summary [] ("a. b. c".toList)
      = joinPS ((splitPeriodSpace ("a. b. c".toList)).take 2) ++ ['.'] ∧
    (generate_basic_summary [] (List.replicate 500 'a')).length ≤ 203 :=
  ⟨(claim_C2 [] _).1 (by decide),
   (claim_C2 [] _).2.2.2.1 (by decide) (by decide)⟩

/-- Claim C10: the two near-duplicate rule-based classifiers differ: on the
    title "phd" with an empty description, AIJobProcessor.basic_categorization
    returns PhD while LondonAcademicScraper.categorize_job returns Research
    (its Research keyword group contains "phd"). -/
theorem claim_C10 :
    basic_categorization ("phd".toList) [] = "PhD".toList ∧
    categorize_job ("phd".toList) [] = "Research".toList ∧
    ("PhD".toList : List Char) ≠ "Research".toList := by
  decide

/-- Claim C5 counterexample: the dedup lookup of save_jobs_to_db does not
    restrict to active postings: the store dbC5 holds no active posting with
    the candidate's (url, university) key, yet the active candidate is
    discarded, and the store ends with no active posting for that key. -/
theorem claim_C5_counterexample :
    candC5.is_active = true ∧
    dbC5.filter
        (fun j => j.is_active && (j.url == candC5.url && j.university == candC5.university))
      = [] ∧
    save_jobs_to_db dbC5 [candC5] = dbC5 ∧
    (save_jobs_to_db dbC5 [candC5]).filter
        (fun j => j.is_active && (j.url == candC5.url && j.university == candC5.university))
      = [] := by
  decide

/-- Claim C5 (amended): the ingestion insert path checks storage for an
    existing posting (active or not) whose university and url both equal the
    candidate's; if found the candidate is discarded, otherwise it is
    appended; hence sequentially inserting two candidates with the identical
    key into a store with no posting for that key yields exactly one stored
    posting for the key, which is active when the candidate is. -/
theorem claim_C5 (db : List Job) (c₁ c₂ : Job)
    (h0 : ∀ j ∈ db, ¬(j.url = c₁.url ∧ j.university = c₁.university))
    (hu : c₂.url = c₁.url) (hv : c₂.university = c₁.university) :
    save_jobs_to_db db [c₁, c₂] = db ++ [c₁] ∧
    ((db ++ [c₁]).filter
        (fun j => j.url == c₁.url && j.university == c₁.university)).length = 1 ∧
    (c₁.is_active = true →
      ((db ++ [c₁]).filter
          (fun j => j.is_active && (j.url == c₁.url && j.university == c₁.university))).length
        = 1) := by
  have hfind1 : findExisting db c₁ = none := by
    rw [findExisting, List.find?_eq_none]
    intro j hj
    simp only [Bool.and_eq_true, beq_iff_eq]
    exact fun h => h0 j hj ⟨h.1, h.2⟩
  have hstep1 : save_jobs_to_db db [c₁, c₂]
      = if (findExisting (db ++ [c₁]) c₂).isSome then db ++ [c₁] else (db ++ [c₁]) ++ [c₂] := by
    simp [save_jobs_to_db, hfind1]
  have hfind2 : (findExisting (db ++ [c₁]) c₂).isSome = true := by
    rw [findExisting, List.find?_isSome]
    exact ⟨c₁, by simp, by simp [hu, hv]⟩
  have hfilter : (db ++ [c₁]).filter
      (fun j => j.url == c₁.url && j.university == c₁.university) = [c₁] := by
    rw [List.filter_append]
    have hdb : db.filter (fun j => j.url == c₁.url && j.university == c₁.university) = [] := by
      rw [List.filter_eq_nil_iff]
      intro j hj
      simp only [Bool.and_eq_true, beq_iff_eq]
      exact fun h => h0 j hj ⟨h.1, h.2⟩
    rw [hdb]
    simp
  refine ⟨by rw [hstep1, if_pos hfind2], by rw [hfilter]; rfl, ?_⟩
  · intro hact
    have : (db ++ [c₁]).filter
        (fun j => j.is_active && (j.url == c₁.url && j.university == c₁.university)) = [c₁] := by
      rw [List.filter_append]
      have hdb : db.filter
          (fun j => j.is_active && (j.url == c₁.url && j.university == c₁.university)) = [] := by
        rw [List.filter_eq_nil_iff]
        intro j hj
        simp only [Bool.and_eq_true, beq_iff_eq]
        exact fun h => h0 j hj ⟨h.2.1, h.2.2⟩
      rw [hdb]
      simp [hact]
    rw [this]
    rfl

/-- Witness for claim C5: inserting the same fresh-keyed candidate twice into
    an empty store leaves exactly one active posting. -/
theorem claim_C5_witness :
    save_jobs_to_db [] [candC5w, candC5w] = ([] : List Job) ++ [candC5w] ∧
    ((([] : List Job) ++ [candC5w]).filter
        (fun j => j.url == candC5w.url && j.university == candC5w.university)).length = 1 ∧
    (candC5w.is_active = true →
      ((([] : List Job) ++ [candC5w]).filter
          (fun j => j.is_active && (j.url == candC5w.url && j.university == candC5w.university))).length
        = 1) :=
  claim_C5 [] candC5w candC5w (by simp) rfl rfl

/-- Claim C6: with no credential configured (api_enabled false), or when the
    external call fails (non-200 status, exception/timeout) or returns an
    invalid label, summarize_job_description and categorize_job_with_ai
    return exactly the rule-based fallback, and summarize_job_description
    returns a string (is some) on every input. -/
theorem claim_C6 (title description university content : List Char)
    (api_enabled : Bool) (call : HttpResult) (status : Nat) :
    (summarize_job_description api_enabled call title description university).isSome = true ∧
    summarize_job_description false call title description university
      = some (generate_basic_summary title description) ∧
    categorize_job_with_ai false call title description
      = basic_categorization title description ∧
    (status ≠ 200 →
      summarize_job_description true (.ok status content) title description university
        = some (generate_basic_summary title description) ∧
      categorize_job_with_ai true (.ok status content) title description
        = basic_categorization title description) ∧
    summarize_job_description true .exn title description university
      = some (generate_basic_summary title description) ∧
    categorize_job_with_ai true .exn title description
      = basic_categorization title description ∧
    (valid_categories.contains (pyStrip content) = false →
      categorize_job_with_ai true (.ok 200 content) title description
        = basic_categorization title description) := by
  refine ⟨?_, ?_, ?_, ?_, ?_, ?_, ?_⟩
  · cases api_enabled with
    | false => simp [summarize_job_description]
    | true =>
      cases call with
      | ok status content =>
        by_cases h : status = 200 <;> simp [summarize_job_description, h]
      | exn => simp [summarize_job_description]
  · simp [summarize_job_description]
  · simp [categorize_job_with_ai]
  · intro h
    constructor
    · simp [summarize_job_description, h]
    · simp [categorize_job_with_ai, h]
  · simp [summarize_job_description]
  · simp [categorize_job_with_ai]
  · intro h
    have h2 : ¬ (pyStrip content ∈ valid_categories) := by simpa using h
    simp [categorize_job_with_ai, h2]

/-- Witness for claim C6 at concrete inputs: a 500 response and a 200
    response carrying the invalid label "banana". -/
theorem claim_C6_witness :
    summarize_job_description true (.ok 500 ("banana".toList)) ("t".toList) ("d".toList) ("u".toList)
      = some (generate_basic_summary ("t".toList) ("d".toList)) ∧
    categorize_job_with_ai true (.ok 500 ("banana".toList)) ("t".toList) ("d".toList)
      = basic_categorization ("t".toList) ("d".toList) ∧
    categorize_job_with_ai true (.ok 200 ("banana".toList)) ("t".toList) ("d".toList)
      = basic_categorization ("t".toList) ("d".toList) := by
  obtain ⟨-, -, -, h4, -, -, h7⟩ :=
    claim_C6 ("t".toList) ("d".toList) ("u".toList) ("banana".toList) true
      (HttpResult.ok 500 ("banana".toList)) 500
  exact ⟨(h4 (by decide)).1, (h4 (by decide)).2, h7 (by decide)⟩

/-- Claim C9 counterexample: a posting whose category is present but equals
    the empty string — neither absent nor the "General" sentinel — still has
    its category overwritten by the enrichment pass. -/
theorem claim_C9_counterexample :
    jC9.category = some [] ∧
    (process_unprocessed_jobs noFailure [jC9]).1
      = [{ jC9 with summary := some ("y".toList), category := some ("General".toList) }] ∧
    some ("General".toList) ≠ some ([] : List Char) := by
  decide

/-- Claim C9 (amended): the enrichment update leaves every field except
    summary and category unchanged, keeps the existing category whenever it
    is present, non-empty and distinct from "General", and otherwise — when
    the category is absent, the empty string, or the "General" sentinel —
    overwrites it with the classifier's result. -/
theorem claim_C9 (j k : Job) :
    ((applyEnrich j k).id = k.id ∧
     (applyEnrich j k).title = k.title ∧
     (applyEnrich j k).university = k.university ∧
     (applyEnrich j k).description = k.description ∧
     (applyEnrich j k).url = k.url ∧
     (applyEnrich j k).location = k.location ∧
     (applyEnrich j k).deadline = k.deadline ∧
     (applyEnrich j k).is_active = k.is_active ∧
     (applyEnrich j k).date_added = k.date_added) ∧
    (overwriteCategory j.category = false → (applyEnrich j j).category = j.category) ∧
    (overwriteCategory j.category = true →
      (applyEnrich j j).category = some (basic_categorization j.title j.description)) ∧
    (overwriteCategory j.category = true ↔
      (j.category = none ∨ j.category = some [] ∨ j.category = some ("General".toList))) := by
  refine ⟨⟨rfl, rfl, rfl, rfl, rfl, rfl, rfl, rfl, rfl⟩, ?_, ?_, ?_⟩
  · intro h
    cases hc : j.category with
    | none => rw [hc] at h; simp [overwriteCategory] at h
    | some s =>
      rw [hc] at h
      simp [applyEnrich, newCategory, hc, h]
  · intro h
    simp [applyEnrich, newCategory, h]
  · cases hc : j.category with
    | none => simp [overwriteCategory, hc]
    | some s =>
      simp [overwriteCategory, hc, List.isEmpty_iff]

/-- Partition of a job list by presence of a summary. -/
theorem length_filter_summary_split (l : List Job) :
    (l.filter (fun j => j.summary.isNone)).length
      + (l.filter (fun j => j.summary.isSome)).length = l.length := by
  induction l with
  | nil => rfl
  | cons j rest ih =>
    cases hs : j.summary with
    | none => simp [List.filter_cons, hs]; omega
    | some s => simp [List.filter_cons, hs]; omega

/-- Every selected job passes the pending filter. -/
theorem selectJobs_pending {db : List Job} {j : Job} (hj : j ∈ selectJobs db) :
    pendingJob j = true :=
  (List.mem_filter.mp (List.Sublist.mem hj (List.take_sublist _ _))).2

/-- Claim C3 counterexample: on a store of eleven pending postings — one more
    than the batch limit of 10 — the second run of the pass still selects a
    record, processes it, and changes the store. -/
theorem claim_C3_counterexample :
    (selectJobs (process_unprocessed_jobs noFailure dbC3).1).length = 1 ∧
    (process_unprocessed_jobs noFailure (process_unprocessed_jobs noFailure dbC3).1).2 = 1 ∧
    (process_unprocessed_jobs noFailure (process_unprocessed_jobs noFailure dbC3).1).1
      ≠ (process_unprocessed_jobs noFailure dbC3).1 := by
  decide

/-- Claim C3 (amended): when every pending record fits in one batch (at most
    10 active postings lack a summary) and no per-record failure occurs,
    every record updated by the first pass has its summary set, so the second
    pass selects zero records and returns the store unchanged with a
    processed count of zero. -/
theorem claim_C3 (db : List Job) (h : (db.filter pendingJob).length ≤ 10) :
    selectJobs (process_unprocessed_jobs noFailure db).1 = [] ∧
    process_unprocessed_jobs noFailure (process_unprocessed_jobs noFailure db).1
      = ((process_unprocessed_jobs noFailure db).1, 0) := by
  have hsel : selectJobs db = db.filter pendingJob := by
    rw [selectJobs]; exact List.take_of_length_le h
  have hfst : (process_unprocessed_jobs noFailure db).1
      = db.map (applySel noFailure (selectJobs db)) := processList_fst _ _ db
  have hfil : ((process_unprocessed_jobs noFailure db).1).filter pendingJob = [] := by
    rw [List.filter_eq_nil_iff]
    intro k hk
    rw [hfst] at hk
    obtain ⟨k₀, hk₀, rfl⟩ := List.mem_map.mp hk
    intro hp
    rw [pendingJob, Bool.and_eq_true] at hp
    obtain ⟨hact, hnone⟩ := hp
    rw [Option.isNone_iff_eq_none] at hnone
    by_cases hpend : pendingJob k₀ = true
    · have hmem : k₀ ∈ selectJobs db := by
        rw [hsel]; exact List.mem_filter.mpr ⟨hk₀, hpend⟩
      have hs : (applySel noFailure (selectJobs db) k₀).summary.isSome = true :=
        applySel_isSome_of_mem _ _ k₀ k₀ hmem rfl rfl
      rw [hnone] at hs
      simp at hs
    · rw [pendingJob, Bool.and_eq_true] at hpend
      by_cases ha : k₀.is_active = true
      · have hn : k₀.summary.isNone ≠ true := fun hh => hpend ⟨ha, hh⟩
        have hs : k₀.summary.isSome = true := by
          cases hsum : k₀.summary with
          | none => rw [hsum] at hn; simp at hn
          | some s => simp
        have hs2 := applySel_isSome noFailure (selectJobs db) k₀ hs
        rw [hnone] at hs2
        simp at hs2
      · have hpres := applySel_active noFailure (selectJobs db) k₀
        rw [hact] at hpres
        exact ha hpres.symm
  have hempty : selectJobs (process_unprocessed_jobs noFailure db).1 = [] := by
    rw [selectJobs, hfil]
    rfl
  refine ⟨hempty, ?_⟩
  rw [process_unprocessed_jobs, hempty]
  rfl

/-- Witness for claim C3 on a concrete two-record store. -/
theorem claim_C3_witness :
    selectJobs (process_unprocessed_jobs noFailure dbC3w).1 = [] ∧
    process_unprocessed_jobs noFailure (process_unprocessed_jobs noFailure dbC3w).1
      = ((process_unprocessed_jobs noFailure dbC3w).1, 0) :=
  claim_C3 dbC3w (by decide)

/-- Claim C4: the pass reports exactly the number of selected records whose
    enrichment succeeded — failed records are skipped, not counted — and
    every selected record whose enrichment succeeds is persisted with its
    summary set even when an earlier record of the batch failed. -/
theorem claim_C4 (fail : Nat → Bool) (db : List Job) :
    (process_unprocessed_jobs fail db).2
      = ((selectJobs db).filter (fun j => !fail j.id)).length ∧
    ((db.map Job.id).Nodup → ∀ j ∈ selectJobs db, fail j.id = false →
      ∃ k ∈ (process_unprocessed_jobs fail db).1,
        k.id = j.id ∧ k.summary = some (generate_basic_summary j.title j.description)) := by
  constructor
  · exact processList_snd fail (selectJobs db) db
  · intro hnd j hj hf
    have hjdb : j ∈ db := selectJobs_mem hj
    have hk : applySel fail (selectJobs db) j ∈ (process_unprocessed_jobs fail db).1 := by
      rw [process_unprocessed_jobs, processList_fst]
      exact List.mem_map_of_mem _ hjdb
    rcases applySel_char fail j (selectJobs db) (selectJobs_nodup hnd) with
      heq | ⟨j', hj', hf', hid', heq'⟩
    · have hs : (applySel fail (selectJobs db) j).summary.isSome = true :=
        applySel_isSome_of_mem _ _ j j hj hf rfl
      rw [heq] at hs
      have hpend := selectJobs_pending hj
      rw [pendingJob, Bool.and_eq_true] at hpend
      rw [Option.isNone_iff_eq_none.mp hpend.2] at hs
      simp at hs
    · have hjj : j' = j :=
        List.inj_on_of_nodup_map hnd (selectJobs_mem hj') hjdb hid'
      rw [hjj] at heq'
      exact ⟨applySel fail (selectJobs db) j, hk, by rw [heq']; rfl, by rw [heq']; rfl⟩

/-- Witness for claim C4 on a two-record batch whose first record fails. -/
theorem claim_C4_witness :
    (process_unprocessed_jobs failC4 dbC4w).2
        = ((selectJobs dbC4w).filter (fun j => !failC4 j.id)).length ∧
    ∃ k ∈ (process_unprocessed_jobs failC4 dbC4w).1,
      k.id = jobB4.id ∧
        k.summary = some (generate_basic_summary jobB4.title jobB4.description) :=
  ⟨(claim_C4 failC4 dbC4w).1,
   (claim_C4 failC4 dbC4w).2 (by decide) jobB4 (by decide) (by decide)⟩

/-- Claim C7 counterexample: enriching a posting with an empty description
    and a prior free-text category stores an empty summary and keeps the
    out-of-taxonomy category. -/
theorem claim_C7_counterexample :
    jC7.category = some ("Bananas".toList) ∧
    ¬ ("Bananas".toList ∈ taxonomy) ∧
    (process_unprocessed_jobs noFailure [jC7]).1
      = [{ jC7 with summary := some [], category := some ("Bananas".toList) }] ∧
    (some ([] : List Char)).isSome = true := by
  decide

/-- Claim C7 (amended): after an enrichment pass, every record is either
    untouched or carries the rule-based summary of its description — which is
    non-empty whenever the description is non-empty and has length at most
    max(description length + 1, 203) — and a category that is either the
    classifier's output, always inside the taxonomy, or the record's prior
    category value kept unchanged. -/
theorem claim_C7 (db : List Job) (hnd : (db.map Job.id).Nodup) :
    List.Forall₂ enrichOutcome db (process_unprocessed_jobs noFailure db).1 := by
  rw [process_unprocessed_jobs, processList_fst, List.forall₂_map_right_iff,
    List.forall₂_same]
  intro k₀ hk₀
  rcases applySel_char noFailure k₀ (selectJobs db) (selectJobs_nodup hnd) with
    heq | ⟨j, hj, hfj, hid, heq⟩
  · rw [heq]; exact Or.inl rfl
  · have hjj : j = k₀ :=
      List.inj_on_of_nodup_map hnd (selectJobs_mem hj) hk₀ hid
    rw [hjj] at heq
    rw [heq]
    right
    refine ⟨rfl, fun hd => gbs_ne_nil _ _ hd, gbs_length_le _ _, ?_⟩
    by_cases hov : overwriteCategory k₀.category = true
    · rw [if_pos hov]
      exact ⟨by simp [applyEnrich, newCategory, hov], basic_mem_taxonomy _ _⟩
    · rw [if_neg hov]
      have hov' : overwriteCategory k₀.category = false := by simpa using hov
      cases hc : k₀.category with
      | none => rw [hc] at hov'; simp [overwriteCategory] at hov'
      | some s =>
        rw [hc] at hov'
        simp [applyEnrich, newCategory, hc, hov']

/-- Witness for claim C7 on a concrete one-record store. -/
theorem claim_C7_witness :
    List.Forall₂ enrichOutcome dbC7w (process_unprocessed_jobs noFailure dbC7w).1 :=
  claim_C7 dbC7w (by decide)

/-- Claim C8: the enrichment pass selects only active postings without a
    summary, at most 10 of them; and on a store of 10 active postings of
    which 3 already carry summaries, the pass processes exactly 7 records. -/
theorem claim_C8 (db : List Job) :
    (∀ j ∈ selectJobs db, j.is_active = true ∧ j.summary = none) ∧
    (selectJobs db).length ≤ 10 ∧
    ((∀ j ∈ db, j.is_active = true) →
      (db.filter (fun j => j.summary.isSome)).length = 3 →
      db.length = 10 →
      (process_unprocessed_jobs noFailure db).2 = 7) := by
  refine ⟨?_, ?_, ?_⟩
  · intro j hj
    have hp := selectJobs_pending hj
    rw [pendingJob, Bool.and_eq_true] at hp
    exact ⟨hp.1, Option.isNone_iff_eq_none.mp hp.2⟩
  · exact List.length_take_le _ _
  · intro hact h3 h10
    rw [process_unprocessed_jobs, processList_snd]
    have hT : (selectJobs db).filter (fun j => !noFailure j.id) = selectJobs db := by
      rw [List.filter_eq_self]
      intro a ha
      rfl
    rw [hT, selectJobs, List.length_take]
    have hcong : db.filter pendingJob = db.filter (fun j => j.summary.isNone) := by
      apply List.filter_congr
      intro j hj
      rw [pendingJob, hact j hj]
      simp
    have hpart := length_filter_summary_split db
    rw [hcong]
    omega

/-- Witness for claim C8 on a concrete ten-record store with three summaries
    already present. -/
theorem claim_C8_witness : (process_unprocessed_jobs noFailure dbC8w).2 = 7 :=
  (claim_C8 dbC8w).2.2 (by decide) (by decide) (by decide)

/-- Witness for claim C9: a posting with category "Research" keeps it, and a
    posting with an empty-string category gets the classifier's result. -/
theorem claim_C9_witness :
    (applyEnrich jC9w jC9w).category = jC9w.category ∧
    (applyEnrich jC9 jC9).category
      = some (basic_categorization jC9.title jC9.description) :=
  ⟨(claim_C9 jC9w jC9w).2.1 (by decide), (claim_C9 jC9 jC9).2.2.1 (by decide)⟩
